import Mathlib

/-!
Verification of `fabulous.logs.TransientStreamHandler` (file `fabulous/logs.py`).

The handler keeps two pieces of mutable state, `need_cr : Bool` (called
`needs_newline` in the specification) and `last : String` (called `last_line`),
and writes byte sequences to an output stream.  We embed the handler shallowly:
Python strings become `List Char`, the output stream becomes a trace of events
(`wr` for a `stream.write` call, `flush` for `stream.flush`), and the external
terminal-width collaborator `utils.term.width` becomes an explicit `Nat`
argument.  A second, instrumented embedding models the stream as a fallible
collaborator in order to reason about the `UnicodeError` retry and the
exception routing in `emit`.
-/

namespace Fabulous

/-- Python strings are modelled as lists of characters. -/
abbrev Str := List Char

/-- The six characters stripped by Python's `str.rstrip()` with no argument. -/
def isPySpace (c : Char) : Bool :=
  c = ' ' || c = '\t' || c = '\n' || c = '\r' || c = '\x0b' || c = '\x0c'

/-- Python `data.rstrip()`: drop trailing whitespace. -/
def pyRstrip (s : Str) : Str :=
  (s.reverse.dropWhile isPySpace).reverse

/-- Python slice `s[:n]` where `n` may be negative (counts from the end). -/
def pySliceTo (n : Int) (s : Str) : Str :=
  if 0 ≤ n then s.take n.toNat else s.take (s.length - (-n).toNat)

/-- Python `"%-<w>s" % s`: left justification, padding with spaces to `w`
columns (no padding when `s` is already at least `w` long). -/
def ljust (w : Nat) (s : Str) : Str :=
  s ++ List.replicate (w - s.length) ' '

/-- The truncation step of `transient_write`: a line longer than the terminal
width `W` becomes `line[:W - 3] + "..."` (Python slicing, so `W - 3` may be
negative). -/
def renderLine (W : Nat) (line : Str) : Str :=
  if W < line.length then pySliceTo ((W : Int) - 3) line ++ ['.', '.', '.'] else line

/-- Handler state: `need_cr` and `last` from `TransientStreamHandler.__init__`
(`self.need_cr = False`, `self.last = ""`). -/
structure Handler where
  need_cr : Bool
  last : Str
deriving DecidableEq, Repr

/-- The freshly constructed handler. -/
def Handler.fresh : Handler := ⟨false, []⟩

/-- Stream events: a `stream.write(s)` call or a `stream.flush()` call. -/
inductive Ev where
  | wr : Str → Ev
  | flush : Ev
deriving DecidableEq, Repr

/-- The bytes a trace of events puts on the stream (flushes add none). -/
def bytesOf (evs : List Ev) : Str :=
  evs.foldr (fun e acc => match e with | Ev.wr s => s ++ acc | Ev.flush => acc) []

/-- The body of the `for line in data.rstrip().split('\n')` loop of
`transient_write`: a non-empty line is truncated to the terminal width,
left-justified to `max(min(width, len(self.last)), len(line))` columns and
written, after `self.last` is set to the truncated line; an empty line writes
a bare carriage return and flushes. -/
def lineStep (W : Nat) (h : Handler) (line : Str) : Handler × List Ev :=
  if line = [] then
    (h, [Ev.wr ['\r'], Ev.flush])
  else
    let line' := renderLine W line
    let lw := max (min W h.last.length) line'.length
    ({ h with last := line' }, [Ev.wr (ljust lw line')])

/-- `TransientStreamHandler.transient_write` (success path): write `'\r'` when
`need_cr` is already set, otherwise set it; then process each line of
`data.rstrip().split('\n')` with `lineStep`. -/
def transient_write (W : Nat) (h : Handler) (data : Str) : Handler × List Ev :=
  let start : Handler × List Ev :=
    if h.need_cr then (h, [Ev.wr ['\r']]) else ({ h with need_cr := true }, [])
  ((pyRstrip data).splitOn '\n').foldl
    (fun acc line =>
      let r := lineStep W acc.1 line
      (r.1, acc.2 ++ r.2)) start

/-- `TransientStreamHandler.write` (success path): with `need_cr` set, the
format string is `"\r%-<w>s\n" + self.last` with
`w = max(min(utils.term.width, len(self.last)), len(data))`; otherwise it is
`"%s\n"`.  The handler state is not touched. -/
def write (W : Nat) (h : Handler) (data : Str) : Handler × List Ev :=
  if h.need_cr then
    let w := max (min W h.last.length) data.length
    (h, [Ev.wr (['\r'] ++ ljust w data ++ ['\n'] ++ h.last)])
  else
    (h, [Ev.wr (data ++ ['\n'])])

/-- `TransientStreamHandler.close`: emit a terminating newline when `need_cr`
is set and clear it (delegation to `logging.StreamHandler.close` not
modelled). -/
def close (h : Handler) : Handler × List Ev :=
  if h.need_cr then ({ h with need_cr := false }, [Ev.wr ['\n']]) else (h, [])

/-- `TransientStreamHandler.emit` (success path): records at level
`self.levelno` or above go to `write`, the rest to `transient_write`. -/
def emit (W threshold : Nat) (h : Handler) (levelno : Nat) (msg : Str) :
    Handler × List Ev :=
  if threshold ≤ levelno then write W h msg else transient_write W h msg

/-- Run a sequence of transient writes from a given handler state,
accumulating the event trace. -/
def runTransientFrom (W : Nat) (st : Handler × List Ev) (msgs : List Str) :
    Handler × List Ev :=
  msgs.foldl (fun acc m =>
    let r := transient_write W acc.1 m
    (r.1, acc.2 ++ r.2)) st

/-- Run a sequence of transient writes from a fresh handler. -/
def runTransient (W : Nat) (msgs : List Str) : Handler × List Ev :=
  runTransientFrom W (Handler.fresh, []) msgs

/-! ### A one-row terminal model

Transient output never contains a newline, so its visible effect is confined
to a single terminal row.  We model the row as a character list together with
a cursor column: a carriage return moves the cursor to column 0, any other
character overwrites the cell under the cursor and advances it. -/

/-- A terminal row and the cursor column on it. -/
structure Term where
  row : Str
  col : Nat
deriving DecidableEq, Repr

/-- Overwrite position `col` of `row` with `c` (extending the row when the
cursor sits at or past its end). -/
def putAt (row : Str) (col : Nat) (c : Char) : Str :=
  row.take col ++ [c] ++ row.drop (col + 1)

/-- One character arriving at the terminal. -/
def stepChar (t : Term) (c : Char) : Term :=
  if c = '\r' then { t with col := 0 }
  else { row := putAt t.row t.col c, col := t.col + 1 }

/-- A whole string arriving at the terminal. -/
def renderStr (t : Term) (s : Str) : Term :=
  s.foldl stepChar t

/-- A trace of stream events arriving at the terminal. -/
def renderEvs (t : Term) (evs : List Ev) : Term :=
  evs.foldl (fun t e => match e with | Ev.wr s => renderStr t s | Ev.flush => t) t

/-! ### Instrumented model: fallible stream and exception routing

`write` and `transient_write` wrap each formatted `stream.write` in
`try ... except UnicodeError`, retrying once with the data re-encoded as
UTF-8; `emit` wraps everything in `try ... except (KeyboardInterrupt,
SystemExit): raise / except: self.handleError(record)`.  We model the stream
as a deterministic collaborator answering each written string with `ok` or a
Python exception, and UTF-8 encoding as an abstract string transformer. -/

/-- Python exceptions relevant to the handler: the two process-termination
signals, `UnicodeError`, and everything else. -/
inductive PyExc where
  | keyboardInterrupt : PyExc
  | systemExit : PyExc
  | unicodeError : PyExc
  | other : Nat → PyExc
deriving DecidableEq, Repr

deriving instance DecidableEq for Except

/-- The fallible stream (`res`: the outcome of writing a given string) and the
`.encode("UTF-8")` transformation (`enc`). -/
structure IoEnv where
  res : Str → Except PyExc Unit
  enc : Str → Str

/-- The string `fmt % d` built by `write`, with the field width computed from
the original `data` and the substituted string `d` (equal to `data` on the
first attempt and to `data.encode("UTF-8")` on the retry). -/
def permMsgWith (W : Nat) (h : Handler) (data d : Str) : Str :=
  if h.need_cr then
    ['\r'] ++ ljust (max (min W h.last.length) data.length) d ++ ['\n'] ++ h.last
  else d ++ ['\n']

/-- `TransientStreamHandler.write` against a fallible stream: the attempted
writes and the final outcome.  Only `UnicodeError` triggers the single
re-encoded retry. -/
def write_io (env : IoEnv) (W : Nat) (h : Handler) (data : Str) :
    List Str × Except PyExc Unit :=
  let m1 := permMsgWith W h data data
  match env.res m1 with
  | Except.error PyExc.unicodeError =>
    let m2 := permMsgWith W h data (env.enc data)
    ([m1, m2], env.res m2)
  | r => ([m1], r)

/-- The loop body of `transient_write` against a fallible stream: attempted
writes, updated handler and outcome.  `self.last` is assigned before the
`try`, so it is updated even when the write fails. -/
def tline_io (env : IoEnv) (W : Nat) (h : Handler) (line : Str) :
    Handler × List Str × Except PyExc Unit :=
  if line = [] then
    (h, [['\r']], env.res ['\r'])
  else
    let line' := renderLine W line
    let lw := max (min W h.last.length) line'.length
    let h' := { h with last := line' }
    let m1 := ljust lw line'
    match env.res m1 with
    | Except.error PyExc.unicodeError =>
      let m2 := ljust lw (env.enc line')
      (h', [m1, m2], env.res m2)
    | r => (h', [m1], r)

/-- The line loop of `transient_write` against a fallible stream: an uncaught
exception aborts the remaining lines. -/
def tlines_io (env : IoEnv) (W : Nat) (h : Handler) :
    List Str → Handler × List Str × Except PyExc Unit
  | [] => (h, [], Except.ok ())
  | line :: rest =>
    let r := tline_io env W h line
    match r.2.2 with
    | Except.ok _ =>
      let r' := tlines_io env W r.1 rest
      (r'.1, r.2.1 ++ r'.2.1, r'.2.2)
    | e => (r.1, r.2.1, e)

/-- `TransientStreamHandler.transient_write` against a fallible stream. The
leading `stream.write('\r')` is not guarded by any `try`. -/
def transient_write_io (env : IoEnv) (W : Nat) (h : Handler) (data : Str) :
    Handler × List Str × Except PyExc Unit :=
  if h.need_cr then
    match env.res ['\r'] with
    | Except.ok _ => tlines_io env W h ((pyRstrip data).splitOn '\n')
    | e => (h, [['\r']], e)
  else
    tlines_io env W { h with need_cr := true } ((pyRstrip data).splitOn '\n')

/-- The string a non-empty transient line puts on the stream on the first
attempt: the rendered line left-justified to
`max(min(width, len(self.last)), len(line))` columns. -/
def tlineMsg (W : Nat) (h : Handler) (line : Str) : Str :=
  ljust (max (min W h.last.length) (renderLine W line).length) (renderLine W line)

/-- The string the retry of a non-empty transient line puts on the stream:
the same format applied to the UTF-8 re-encoded line (field width still
computed from the un-encoded line). -/
def tlineMsgEnc (env : IoEnv) (W : Nat) (h : Handler) (line : Str) : Str :=
  ljust (max (min W h.last.length) (renderLine W line).length)
    (env.enc (renderLine W line))

/-- What `emit` does with a record, seen from the caller. -/
inductive EmitResult where
  | normal : EmitResult
  | errorHandled : EmitResult
  | raised : PyExc → EmitResult
deriving DecidableEq, Repr

/-- The `except` clauses of `emit`: `KeyboardInterrupt` and `SystemExit` are
re-raised, every other exception goes to `self.handleError(record)`. -/
def routeExc : PyExc → EmitResult
  | PyExc.keyboardInterrupt => EmitResult.raised PyExc.keyboardInterrupt
  | PyExc.systemExit => EmitResult.raised PyExc.systemExit
  | _ => EmitResult.errorHandled

/-- `TransientStreamHandler.emit` against a fallible stream and a fallible
formatter (`fmtres` is the outcome of `self.format(record)`). -/
def emit_io (env : IoEnv) (W threshold : Nat) (h : Handler) (levelno : Nat)
    (fmtres : Except PyExc Str) : Handler × EmitResult :=
  match fmtres with
  | Except.error e => (h, routeExc e)
  | Except.ok msg =>
    let r : Handler × Except PyExc Unit :=
      if threshold ≤ levelno then
        (h, (write_io env W h msg).2)
      else
        let t := transient_write_io env W h msg
        (t.1, t.2.2)
    match r.2 with
    | Except.ok _ => (r.1, EmitResult.normal)
    | Except.error e => (r.1, routeExc e)

/-- The outcome of the body of `emit`'s `try` block after formatting
succeeded with `msg`: the outcome of the chosen write strategy. -/
def emitBody (env : IoEnv) (W threshold : Nat) (h : Handler) (levelno : Nat)
    (msg : Str) : Except PyExc Unit :=
  if threshold ≤ levelno then (write_io env W h msg).2
  else (transient_write_io env W h msg).2.2

/-- A stream that accepts every write, with identity encoding. -/
def okEnv : IoEnv := ⟨fun _ => Except.ok (), fun s => s⟩

/-! ### Definitions taken from the specification's words

These follow the specification, not the code, and exist to be compared with
the embedded code. -/

/-- Specification's reading of a permanent write with a pending transient
line: one pass writing a carriage return, the message padded to at least
`max(terminal_width, len(last_line))` columns, a newline, then the pending
transient line. -/
def specPermWrite (W : Nat) (h : Handler) (data : Str) : Prop :=
  ∃ w, max W h.last.length ≤ w ∧
    (write W h data).2 = [Ev.wr (['\r'] ++ ljust w data ++ ['\n'] ++ h.last)]

/-- Specification's padding width for a transient line:
`max(terminal_width, len(last_line), len(line))`. -/
def spec_transient_width (W lastLen lineLen : Nat) : Nat :=
  max W (max lastLen lineLen)

/-- Specification's claim about truncation: an over-long line renders to
exactly `W` characters ending in `"..."`. -/
def spec_truncation (W : Nat) (line : Str) : Prop :=
  (renderLine W line).length = W ∧
    (renderLine W line).drop ((renderLine W line).length - 3) = ['.', '.', '.']

/-- The §8 concrete scenario: threshold WARNING (30), width 10; emit DEBUG
(10) `"a"`, DEBUG `"bb"`, then WARNING `"ALERT"`; final handler state and the
concatenated event trace. -/
def scenarioC4 : Handler × List Ev :=
  let s1 := emit 10 30 Handler.fresh 10 ['a']
  let s2 := emit 10 30 s1.1 10 ['b', 'b']
  let s3 := emit 10 30 s2.1 30 "ALERT".toList
  (s3.1, s1.2 ++ (s2.2 ++ s3.2))

end Fabulous

namespace Fabulous

example : pyRstrip "ab \n".toList = ['a', 'b'] := by decide

example : (pyRstrip "".toList).splitOn '\n' = [[]] := by decide

example : (pyRstrip "a\nb".toList).splitOn '\n' = [['a'], ['b']] := by decide

example : renderLine 5 "abcdefg".toList = ['a', 'b', '.', '.', '.'] := by decide

example : renderLine 1 "ab".toList = ['.', '.', '.'] := by decide

example : transient_write 10 Handler.fresh ['a'] =
    (⟨true, ['a']⟩, [Ev.wr ['a']]) := by decide

example : transient_write 10 ⟨true, ['a']⟩ ['b', 'b'] =
    (⟨true, ['b', 'b']⟩, [Ev.wr ['\r'], Ev.wr ['b', 'b']]) := by decide

example : write 10 ⟨true, ['b', 'b']⟩ "ALERT".toList =
    (⟨true, ['b', 'b']⟩, [Ev.wr "\rALERT\nbb".toList]) := by decide

/-! ### Helper lemmas -/

theorem ljust_length (w : Nat) (s : Str) : (ljust w s).length = max s.length w := by
  simp [ljust]
  omega

theorem ljust_of_le (w : Nat) (s : Str) (hw : w ≤ s.length) : ljust w s = s := by
  simp [ljust, Nat.sub_eq_zero_of_le hw]

/-! ### C1: permanent write with a pending transient line -/

/-- C1 (counterexample): with terminal width 10 and pending line `"ab"`,
committing `"x"` writes `"\rx \nab"`; the message is padded to
`max(min(10, 2), 1) = 2` columns, not to at least `max(10, 2) = 10` as the
claim states. -/
theorem C1_counterexample :
    ¬ specPermWrite 10 ⟨true, ['a', 'b']⟩ ['x'] := by
  rintro ⟨w, hw, heq⟩
  have hb : (write 10 (⟨true, ['a', 'b']⟩ : Handler) ['x']).2 =
      [Ev.wr ['\r', 'x', ' ', '\n', 'a', 'b']] := by decide
  rw [hb] at heq
  simp only [List.cons.injEq, Ev.wr.injEq, and_true] at heq
  have hl := congrArg List.length heq
  simp only [List.length_append, List.length_cons, List.length_nil,
    ljust_length] at hl
  simp only [Handler.last] at hw
  omega

/-- C1 (amended): for every permanent write invoked while `needs_newline` is
true, the handler writes, in one pass, a carriage return, the message
left-justified and padded to exactly
`max(min(terminal_width, len(last_line)), len(message))` columns, a newline,
and then the pending transient line; the handler state is untouched. -/
theorem C1_amended (W : Nat) (h : Handler) (data : Str) (hcr : h.need_cr = true) :
    write W h data =
      (h, [Ev.wr (['\r'] ++ ljust (max (min W h.last.length) data.length) data
        ++ ['\n'] ++ h.last)]) := by
  simp [write, hcr]

/-- C1 witness: the amended statement evaluated at width 10, pending line
`"ab"`, message `"x"`. -/
theorem C1_amended_witness :
    (⟨true, ['a', 'b']⟩ : Handler).need_cr = true ∧
      write 10 ⟨true, ['a', 'b']⟩ ['x'] =
        (⟨true, ['a', 'b']⟩, [Ev.wr ['\r', 'x', ' ', '\n', 'a', 'b']]) :=
  ⟨rfl, (C1_amended 10 ⟨true, ['a', 'b']⟩ ['x'] rfl).trans (by decide)⟩

/-! ### C2: padding width of a transient line -/

/-- C2 (counterexample): from a fresh handler with width 10, a transient
write of `"bb"` writes exactly `"bb"` (padded to
`max(min(10, 0), 2) = 2` columns), not `"bb"` padded to
`max(10, 0, 2) = 10` columns as the claim states. -/
theorem C2_counterexample :
    (transient_write 10 Handler.fresh ['b', 'b']).2 = [Ev.wr ['b', 'b']] ∧
      ljust (spec_transient_width 10 0 2) ['b', 'b'] ≠ ['b', 'b'] := by
  decide

/-- C2 (amended): every non-empty line processed by the transient-write loop
is written left-justified, padded with trailing spaces to exactly
`max(min(terminal_width, len(last_line)), len(rendered_line))` columns, as a
single write with nothing appended; `last_line` becomes the rendered line. -/
theorem C2_amended (W : Nat) (h : Handler) (line : Str) (hne : line ≠ []) :
    lineStep W h line =
      ({ h with last := renderLine W line },
        [Ev.wr (ljust (max (min W h.last.length) (renderLine W line).length)
          (renderLine W line))]) := by
  simp [lineStep, hne]

/-- C2 witness: the amended statement evaluated at width 10, fresh state,
line `"bb"`. -/
theorem C2_amended_witness :
    (['b', 'b'] : Str) ≠ [] ∧
      lineStep 10 Handler.fresh ['b', 'b'] =
        (⟨false, ['b', 'b']⟩, [Ev.wr ['b', 'b']]) :=
  ⟨by decide, (C2_amended 10 Handler.fresh ['b', 'b'] (by decide)).trans (by decide)⟩

/-! ### C3: truncation of over-long transient lines -/

/-- C3 (counterexample): the claim quantifies over every positive terminal
width, but at width `W = 1` the line `"ab"` (longer than `W`) renders as
`"..."`, which has 3 characters, not exactly `W = 1`. -/
theorem C3_counterexample :
    0 < 1 ∧ 1 < (['a', 'b'] : Str).length ∧ ¬ spec_truncation 1 ['a', 'b'] := by
  refine ⟨by decide, by decide, ?_⟩
  unfold spec_truncation
  decide

/-- C3 (amended): for every terminal width `W ≥ 3` and every line longer than
`W`, the rendered line is exactly `W` characters and ends in `"..."`. -/
theorem C3_amended (W : Nat) (line : Str) (h3 : 3 ≤ W) (hlen : W < line.length) :
    (renderLine W line).length = W ∧
      (renderLine W line).drop (W - 3) = ['.', '.', '.'] := by
  have hsl : pySliceTo ((W : Int) - 3) line = line.take (W - 3) := by
    have h0 : (0 : Int) ≤ (W : Int) - 3 := by omega
    simp only [pySliceTo, if_pos h0]
    congr 1
    omega
  have htl : (line.take (W - 3)).length = W - 3 := by
    rw [List.length_take]
    omega
  constructor
  · rw [renderLine, if_pos hlen, hsl]
    simp only [List.length_append, htl, List.length_cons, List.length_nil]
    omega
  · rw [renderLine, if_pos hlen, hsl]
    have hd := List.drop_left (line.take (W - 3)) (['.', '.', '.'] : Str)
    rw [htl] at hd
    exact hd

/-- C3 witness: the amended statement evaluated at width 5 and the 7-character
line `"abcdefg"`. -/
theorem C3_amended_witness :
    (3 ≤ 5 ∧ 5 < ("abcdefg".toList : Str).length) ∧
      ((renderLine 5 "abcdefg".toList).length = 5 ∧
        (renderLine 5 "abcdefg".toList).drop (5 - 3) = ['.', '.', '.']) :=
  ⟨by decide, C3_amended 5 "abcdefg".toList (by decide) (by decide)⟩

/-! ### C4: the §8 concrete scenario -/

/-- C4 (counterexample): the scenario's actual byte output is
`"a\rbb\rALERT\nbb"`, not the claimed
`"\ra         \rbb        \rALERT     \nbb"`: the first transient write emits
no leading carriage return, and no write pads to the full terminal width
here. -/
theorem C4_counterexample :
    bytesOf scenarioC4.2 = "a\rbb\rALERT\nbb".toList ∧
      "a\rbb\rALERT\nbb".toList ≠
        "\ra         \rbb        \rALERT     \nbb".toList := by
  decide

/-- C4 (amended): the scenario (threshold WARNING, width 10; DEBUG `"a"`,
DEBUG `"bb"`, WARNING `"ALERT"`) produces exactly the bytes
`"a\rbb\rALERT\nbb"` — each transient line padded only to
`max(min(width, len(last)), len(line))` columns — and leaves
`needs_newline` true with `last_line = "bb"`. -/
theorem C4_amended :
    bytesOf scenarioC4.2 = "a\rbb\rALERT\nbb".toList ∧
      scenarioC4.1 = ⟨true, ['b', 'b']⟩ := by
  decide

/-! ### C5: state after a permanent write -/

/-- C5 (counterexample): a permanent write from a state with a pending
transient line leaves `needs_newline` true, not false as the claim states
(`last_line` is indeed unchanged). -/
theorem C5_counterexample :
    (write 10 ⟨true, ['a', 'b']⟩ ['x']).1.last = ['a', 'b'] ∧
      ¬ (write 10 ⟨true, ['a', 'b']⟩ ['x']).1.need_cr = false := by
  decide

/-- C5 (amended): a permanent write never changes the handler state at all:
both `last_line` and `needs_newline` are exactly as before the write
(`needs_newline` is cleared only by `close`). -/
theorem C5_amended (W : Nat) (h : Handler) (data : Str) :
    (write W h data).1 = h := by
  rw [write]
  split <;> rfl

/-! ### C10: transient write of a message that strips to nothing -/

/-- C10: a transient write whose message is empty after trailing-whitespace
stripping, issued while `needs_newline` is false, sets `needs_newline`,
writes only a carriage return followed by a flush, leaves `last_line`
unchanged, and a subsequent `close` emits a newline. -/
theorem C10_empty_transient (W : Nat) (h : Handler) (data : Str)
    (hr : pyRstrip data = []) (hcr : h.need_cr = false) :
    (transient_write W h data).1.need_cr = true ∧
      (transient_write W h data).1.last = h.last ∧
      (transient_write W h data).2 = [Ev.wr ['\r'], Ev.flush] ∧
      (close (transient_write W h data).1).2 = [Ev.wr ['\n']] := by
  have hsplit : (pyRstrip data).splitOn '\n' = [[]] := by
    rw [hr]
    rfl
  rw [transient_write, hsplit]
  simp [hcr, lineStep, close]

/-- C10 witness: the statement evaluated at width 10, a fresh handler and the
message `"\n"`. -/
theorem C10_empty_transient_witness :
    (pyRstrip "\n".toList = [] ∧ Handler.fresh.need_cr = false) ∧
      ((transient_write 10 Handler.fresh "\n".toList).1.need_cr = true ∧
        (transient_write 10 Handler.fresh "\n".toList).1.last = Handler.fresh.last ∧
        (transient_write 10 Handler.fresh "\n".toList).2 = [Ev.wr ['\r'], Ev.flush] ∧
        (close (transient_write 10 Handler.fresh "\n".toList).1).2 = [Ev.wr ['\n']]) :=
  ⟨⟨by decide, rfl⟩, C10_empty_transient 10 Handler.fresh "\n".toList (by decide) rfl⟩

/-! ### C8: the `UnicodeError` retry -/

theorem write_io_eq (env : IoEnv) (W : Nat) (h : Handler) (data : Str) :
    write_io env W h data =
      if env.res (permMsgWith W h data data) = Except.error PyExc.unicodeError then
        ([permMsgWith W h data data, permMsgWith W h data (env.enc data)],
          env.res (permMsgWith W h data (env.enc data)))
      else ([permMsgWith W h data data], env.res (permMsgWith W h data data)) := by
  rcases hres : env.res (permMsgWith W h data data) with e | u
  · cases e <;> simp [write_io, hres]
  · simp [write_io, hres]

theorem tline_io_eq (env : IoEnv) (W : Nat) (h : Handler) (line : Str)
    (hne : line ≠ []) :
    tline_io env W h line =
      ({ h with last := renderLine W line },
        if env.res (tlineMsg W h line) = Except.error PyExc.unicodeError then
          ([tlineMsg W h line, tlineMsgEnc env W h line],
            env.res (tlineMsgEnc env W h line))
        else ([tlineMsg W h line], env.res (tlineMsg W h line))) := by
  have hmsg : tlineMsg W h line =
      ljust (max (min W h.last.length) (renderLine W line).length)
        (renderLine W line) := rfl
  rcases hres : env.res (tlineMsg W h line) with e | u
  · rw [hmsg] at hres
    cases e <;> simp [tline_io, tlineMsg, tlineMsgEnc, hne, hres]
  · rw [hmsg] at hres
    simp [tline_io, tlineMsg, tlineMsgEnc, hne, hres]

/-- C8: on both write paths, a `UnicodeError` from the stream triggers exactly
one retry, with the message rebuilt from the UTF-8 re-encoded data; any other
stream failure is not retried, and no path ever attempts more than two
writes. -/
theorem C8_single_unicode_retry (env : IoEnv) (W : Nat) (h : Handler)
    (data line : Str) (hne : line ≠ []) :
    ((write_io env W h data).1.length ≤ 2 ∧
      (env.res (permMsgWith W h data data) = Except.error PyExc.unicodeError →
        write_io env W h data =
          ([permMsgWith W h data data, permMsgWith W h data (env.enc data)],
            env.res (permMsgWith W h data (env.enc data)))) ∧
      (∀ e, e ≠ PyExc.unicodeError →
        env.res (permMsgWith W h data data) = Except.error e →
          write_io env W h data = ([permMsgWith W h data data], Except.error e))) ∧
    ((tline_io env W h line).2.1.length ≤ 2 ∧
      (env.res (tlineMsg W h line) = Except.error PyExc.unicodeError →
        (tline_io env W h line).2 =
          ([tlineMsg W h line, tlineMsgEnc env W h line],
            env.res (tlineMsgEnc env W h line))) ∧
      (∀ e, e ≠ PyExc.unicodeError →
        env.res (tlineMsg W h line) = Except.error e →
          (tline_io env W h line).2 = ([tlineMsg W h line], Except.error e))) := by
  refine ⟨⟨?_, ?_, ?_⟩, ?_, ?_, ?_⟩
  · rw [write_io_eq]
    split <;> simp
  · intro hu
    rw [write_io_eq, if_pos hu]
  · intro e he hres
    have hcond :
        ¬ env.res (permMsgWith W h data data) = Except.error PyExc.unicodeError := by
      rw [hres]
      exact fun hc => he (Except.error.inj hc)
    rw [write_io_eq, if_neg hcond, hres]
  · rw [tline_io_eq env W h line hne]
    split <;> simp
  · intro hu
    rw [tline_io_eq env W h line hne, if_pos hu]
  · intro e he hres
    have hcond :
        ¬ env.res (tlineMsg W h line) = Except.error PyExc.unicodeError := by
      rw [hres]
      exact fun hc => he (Except.error.inj hc)
    rw [tline_io_eq env W h line hne, if_neg hcond, hres]

/-- C8 witness: the statement evaluated on an always-accepting stream, width
10, fresh handler, data `"a"`, line `"x"`. -/
theorem C8_single_unicode_retry_witness :
    (['x'] : Str) ≠ [] ∧
      (((write_io okEnv 10 Handler.fresh ['a']).1.length ≤ 2 ∧
        (okEnv.res (permMsgWith 10 Handler.fresh ['a'] ['a']) =
            Except.error PyExc.unicodeError →
          write_io okEnv 10 Handler.fresh ['a'] =
            ([permMsgWith 10 Handler.fresh ['a'] ['a'],
              permMsgWith 10 Handler.fresh ['a'] (okEnv.enc ['a'])],
              okEnv.res (permMsgWith 10 Handler.fresh ['a'] (okEnv.enc ['a'])))) ∧
        (∀ e, e ≠ PyExc.unicodeError →
          okEnv.res (permMsgWith 10 Handler.fresh ['a'] ['a']) = Except.error e →
            write_io okEnv 10 Handler.fresh ['a'] =
              ([permMsgWith 10 Handler.fresh ['a'] ['a']], Except.error e))) ∧
      ((tline_io okEnv 10 Handler.fresh ['x']).2.1.length ≤ 2 ∧
        (okEnv.res (tlineMsg 10 Handler.fresh ['x']) =
            Except.error PyExc.unicodeError →
          (tline_io okEnv 10 Handler.fresh ['x']).2 =
            ([tlineMsg 10 Handler.fresh ['x'],
              tlineMsgEnc okEnv 10 Handler.fresh ['x']],
              okEnv.res (tlineMsgEnc okEnv 10 Handler.fresh ['x']))) ∧
        (∀ e, e ≠ PyExc.unicodeError →
          okEnv.res (tlineMsg 10 Handler.fresh ['x']) = Except.error e →
            (tline_io okEnv 10 Handler.fresh ['x']).2 =
              ([tlineMsg 10 Handler.fresh ['x']], Except.error e)))) :=
  ⟨by decide, C8_single_unicode_retry okEnv 10 Handler.fresh ['a'] ['x'] (by decide)⟩

/-! ### C9: exception routing in `emit` -/

theorem emit_io_snd_ok (env : IoEnv) (W threshold : Nat) (h : Handler)
    (levelno : Nat) (msg : Str) :
    (emit_io env W threshold h levelno (Except.ok msg)).2 =
      match emitBody env W threshold h levelno msg with
      | Except.ok _ => EmitResult.normal
      | Except.error e => routeExc e := by
  by_cases hle : threshold ≤ levelno
  · cases hw : (write_io env W h msg).2 with
    | error e => simp [emit_io, emitBody, hle, hw]
    | ok u => simp [emit_io, emitBody, hle, hw]
  · cases hw : (transient_write_io env W h msg).2.2 with
    | error e => simp [emit_io, emitBody, hle, hw]
    | ok u => simp [emit_io, emitBody, hle, hw]

/-- C9: whatever exception escapes the body of `emit` (formatting or either
write path), only `KeyboardInterrupt` and `SystemExit` are re-raised to the
caller — and those two always are — while every other exception is routed to
`handleError` and never propagated. -/
theorem C9_exception_routing (env : IoEnv) (W threshold : Nat) (h : Handler)
    (levelno : Nat) (fmtres : Except PyExc Str) :
    (∀ e, (emit_io env W threshold h levelno fmtres).2 = EmitResult.raised e →
      e = PyExc.keyboardInterrupt ∨ e = PyExc.systemExit) ∧
    (fmtres = Except.error PyExc.keyboardInterrupt →
      (emit_io env W threshold h levelno fmtres).2 =
        EmitResult.raised PyExc.keyboardInterrupt) ∧
    (fmtres = Except.error PyExc.systemExit →
      (emit_io env W threshold h levelno fmtres).2 =
        EmitResult.raised PyExc.systemExit) ∧
    (∀ n, fmtres = Except.error (PyExc.other n) →
      (emit_io env W threshold h levelno fmtres).2 = EmitResult.errorHandled) ∧
    (∀ msg e, fmtres = Except.ok msg →
      emitBody env W threshold h levelno msg = Except.error e →
      (emit_io env W threshold h levelno fmtres).2 = routeExc e) := by
  refine ⟨?_, ?_, ?_, ?_, ?_⟩
  · intro e hraised
    rcases fmtres with ex | msg
    · have hre :
          (emit_io env W threshold h levelno (Except.error ex)).2 = routeExc ex := rfl
      rw [hre] at hraised
      cases ex <;> simp_all [routeExc]
    · rw [emit_io_snd_ok] at hraised
      rcases hb : emitBody env W threshold h levelno msg with ex | u
      · rw [hb] at hraised
        cases ex <;> simp_all [routeExc]
      · rw [hb] at hraised
        simp at hraised
  · intro hf
    rw [hf]
    rfl
  · intro hf
    rw [hf]
    rfl
  · intro n hf
    rw [hf]
    rfl
  · intro msg e hf hb
    rw [hf, emit_io_snd_ok, hb]

/-- C9 witness: a record whose formatting raises `KeyboardInterrupt` has it
re-raised out of `emit`. -/
theorem C9_exception_routing_witness :
    (Except.error PyExc.keyboardInterrupt : Except PyExc Str) =
        Except.error PyExc.keyboardInterrupt ∧
      (emit_io okEnv 10 30 Handler.fresh 10
          (Except.error PyExc.keyboardInterrupt)).2 =
        EmitResult.raised PyExc.keyboardInterrupt :=
  ⟨rfl, (C9_exception_routing okEnv 10 30 Handler.fresh 10
    (Except.error PyExc.keyboardInterrupt)).2.1 rfl⟩

/-! ### Rendering lemmas for the one-row terminal model -/

theorem mem_pySliceTo {x : Char} {n : Int} {s : Str} (h : x ∈ pySliceTo n s) :
    x ∈ s := by
  rw [pySliceTo] at h
  split at h <;> exact List.mem_of_mem_take h

theorem renderLine_long_spec (W : Nat) (line : Str) (h3 : 3 ≤ W)
    (hlen : W < line.length) :
    (renderLine W line).length = W ∧
      (renderLine W line).drop (W - 3) = ['.', '.', '.'] := by
  have hsl : pySliceTo ((W : Int) - 3) line = line.take (W - 3) := by
    have h0 : (0 : Int) ≤ (W : Int) - 3 := by omega
    simp only [pySliceTo, if_pos h0]
    congr 1
    omega
  have htl : (line.take (W - 3)).length = W - 3 := by
    rw [List.length_take]
    omega
  constructor
  · rw [renderLine, if_pos hlen, hsl]
    simp only [List.length_append, htl, List.length_cons, List.length_nil]
    omega
  · rw [renderLine, if_pos hlen, hsl]
    have hd := List.drop_left (line.take (W - 3)) (['.', '.', '.'] : Str)
    rw [htl] at hd
    exact hd

theorem renderLine_length_le (W : Nat) (line : Str) (h3 : 3 ≤ W) :
    (renderLine W line).length ≤ W := by
  by_cases hlen : W < line.length
  · exact le_of_eq (renderLine_long_spec W line h3 hlen).1
  · rw [renderLine, if_neg hlen]
    omega

theorem not_mem_renderLine (W : Nat) (line : Str) (h : '\r' ∉ line) :
    '\r' ∉ renderLine W line := by
  rw [renderLine]
  split
  · intro hm
    rcases List.mem_append.1 hm with h1 | h2
    · exact h (mem_pySliceTo h1)
    · simp at h2
  · exact h

theorem not_mem_ljust (w : Nat) (s : Str) (h : '\r' ∉ s) : '\r' ∉ ljust w s := by
  rw [ljust]
  intro hm
  rcases List.mem_append.1 hm with h1 | h2
  · exact h h1
  · have := List.eq_of_mem_replicate h2
    simp at this

theorem splitOn_nl_single (s : Str) (h : '\n' ∉ s) : s.splitOn '\n' = [s] := by
  apply List.splitOnP_eq_single
  intro x hx
  simp only [beq_iff_eq]
  intro he
  exact h (he ▸ hx)

theorem drop_append_replicate (a : Str) (k n : Nat) (c : Char)
    (hn : a.length ≤ n) :
    (a ++ List.replicate k c).drop n = List.replicate (a.length + k - n) c := by
  have h1 : n = a.length + (n - a.length) := by omega
  rw [h1, ← List.drop_drop, List.drop_left, List.drop_replicate]
  congr 1
  omega

theorem renderStr_cr (t : Term) : renderStr t ['\r'] = ⟨t.row, 0⟩ := by
  simp [renderStr, stepChar]

theorem renderStr_no_cr : ∀ (s pre post : Str), '\r' ∉ s →
    renderStr ⟨pre ++ post, pre.length⟩ s =
      ⟨pre ++ s ++ post.drop s.length, pre.length + s.length⟩
  | [], pre, post, _ => by simp [renderStr]
  | c :: cs, pre, post, hs => by
    have hc : ¬ c = '\r' := by
      intro hcc
      exact hs (hcc ▸ List.mem_cons_self c cs)
    have hcs : '\r' ∉ cs := fun hm => hs (List.mem_cons_of_mem _ hm)
    have hstep : stepChar ⟨pre ++ post, pre.length⟩ c =
        ⟨(pre ++ [c]) ++ post.drop 1, (pre ++ [c]).length⟩ := by
      rw [stepChar, if_neg (fun hcc => hc hcc), putAt]
      have htk : (pre ++ post).take pre.length = pre := List.take_left pre post
      have hdr : (pre ++ post).drop (pre.length + 1) = post.drop 1 := by
        rw [← List.drop_drop, List.drop_left]
      rw [htk, hdr]
      simp
    have hrec := renderStr_no_cr cs (pre ++ [c]) (post.drop 1) hcs
    rw [renderStr, List.foldl_cons, hstep]
    rw [renderStr] at hrec
    rw [hrec]
    simp only [List.append_assoc, List.singleton_append, List.drop_drop,
      List.length_append, List.length_cons, List.length_nil, List.length_singleton]
    rw [Nat.add_comm 1 cs.length]
    congr 1
    omega

theorem renderStr_col_zero (s row : Str) (hs : '\r' ∉ s) :
    renderStr ⟨row, 0⟩ s = ⟨s ++ row.drop s.length, s.length⟩ := by
  have h := renderStr_no_cr s [] row hs
  simpa using h

theorem renderEvs_append (t : Term) (a b : List Ev) :
    renderEvs t (a ++ b) = renderEvs (renderEvs t a) b :=
  List.foldl_append _ _ _ _

theorem renderEvs_wr (t : Term) (s : Str) (rest : List Ev) :
    renderEvs t (Ev.wr s :: rest) = renderEvs (renderStr t s) rest := rfl

theorem renderEvs_flush (t : Term) (rest : List Ev) :
    renderEvs t (Ev.flush :: rest) = renderEvs t rest := rfl

theorem renderEvs_nil (t : Term) : renderEvs t [] = t := rfl

/-! ### Characterizations of a whole `transient_write` call -/

/-- A transient write whose stripped message is a single non-empty line:
optional leading carriage return, then one padded write; the new state is
`need_cr = true` with `last` the rendered line. -/
theorem transient_write_single (W : Nat) (h : Handler) (m : Str)
    (hne : pyRstrip m ≠ []) (hnl : '\n' ∉ pyRstrip m) :
    transient_write W h m =
      (⟨true, renderLine W (pyRstrip m)⟩,
        (if h.need_cr then [Ev.wr ['\r']] else []) ++
          [Ev.wr (ljust
            (max (min W h.last.length) (renderLine W (pyRstrip m)).length)
            (renderLine W (pyRstrip m)))]) := by
  rw [transient_write, splitOn_nl_single _ hnl]
  cases hcr : h.need_cr <;> simp [lineStep, hne, hcr]

/-- A transient write whose stripped message is empty: optional leading
carriage return, then a bare carriage return and a flush; `last` unchanged,
`need_cr` set. -/
theorem transient_write_stripped_empty (W : Nat) (h : Handler) (m : Str)
    (hr : pyRstrip m = []) :
    transient_write W h m =
      (⟨true, h.last⟩,
        (if h.need_cr then [Ev.wr ['\r']] else []) ++ [Ev.wr ['\r'], Ev.flush]) := by
  obtain ⟨cr, l⟩ := h
  have hsplit : (pyRstrip m).splitOn '\n' = [[]] := by
    rw [hr]
    rfl
  rw [transient_write, hsplit]
  cases cr <;> simp [lineStep]

/-- Overwriting a row from column 0 with the very content its prefix already
holds does not change the row. -/
theorem rewrite_same (row r : Str) (p : Nat) (hr : '\r' ∉ r)
    (hp : '\r' ∉ r ++ List.replicate p ' ') :
    (renderStr ⟨(renderStr ⟨row, 0⟩ (r ++ List.replicate p ' ')).row, 0⟩ r).row =
      (renderStr ⟨row, 0⟩ (r ++ List.replicate p ' ')).row := by
  rw [renderStr_col_zero _ _ hp, renderStr_col_zero _ _ hr]
  dsimp only
  rw [List.append_assoc, List.drop_left]

/-- One transient write of a single-line message from an invariant state:
the state becomes `⟨true, rendered line⟩`, the rendered line fits the width,
and the visible row is the rendered line followed by spaces. -/
theorem C6_step (W : Nat) (h : Handler) (t : Term) (k : Nat) (m : Str)
    (h3 : 3 ≤ W) (hne : pyRstrip m ≠ []) (hnl : '\n' ∉ pyRstrip m)
    (hncr : '\r' ∉ pyRstrip m) (hcr : h.need_cr = true)
    (hlast : h.last.length ≤ W)
    (hrow : t.row = h.last ++ List.replicate k ' ') :
    (transient_write W h m).1 = ⟨true, renderLine W (pyRstrip m)⟩ ∧
      (renderLine W (pyRstrip m)).length ≤ W ∧
      ∃ k', (renderEvs t (transient_write W h m).2).row =
        renderLine W (pyRstrip m) ++ List.replicate k' ' ' := by
  have hr_le : (renderLine W (pyRstrip m)).length ≤ W :=
    renderLine_length_le W (pyRstrip m) h3
  have hr_nocr : '\r' ∉ renderLine W (pyRstrip m) :=
    not_mem_renderLine W (pyRstrip m) hncr
  rw [transient_write_single W h m hne hnl]
  refine ⟨rfl, hr_le, ?_⟩
  rw [hcr]
  set r := renderLine W (pyRstrip m) with hrdef
  set lw := max (min W h.last.length) r.length with hlwdef
  have hmin : min W h.last.length = h.last.length := min_eq_right hlast
  have hrlw : r.length ≤ lw := le_max_right _ _
  have hlastlw : h.last.length ≤ lw := by
    rw [hlwdef, hmin]
    exact le_max_left _ _
  have hs_nocr : '\r' ∉ ljust lw r := not_mem_ljust lw r hr_nocr
  have hslen : (ljust lw r).length = lw := by
    rw [ljust_length]
    omega
  simp only [if_true, List.singleton_append]
  rw [renderEvs_wr, renderStr_cr, renderEvs_wr, renderEvs_nil]
  rw [renderStr_col_zero _ _ hs_nocr]
  dsimp only
  rw [hslen, hrow, drop_append_replicate _ _ _ _ hlastlw]
  refine ⟨(lw - r.length) + (h.last.length + k - lw), ?_⟩
  rw [ljust, List.append_assoc, ← List.replicate_add]

/-- Accumulated events of a run are the initial events followed by the events
of the same run started with an empty accumulator. -/
theorem runTransientFrom_events :
    ∀ (msgs : List Str) (W : Nat) (h : Handler) (evs : List Ev),
    runTransientFrom W (h, evs) msgs =
      ((runTransientFrom W (h, []) msgs).1,
        evs ++ (runTransientFrom W (h, []) msgs).2)
  | [], W, h, evs => by simp [runTransientFrom]
  | m :: rest, W, h, evs => by
    have hstep : runTransientFrom W (h, evs) (m :: rest) =
        runTransientFrom W
          ((transient_write W h m).1, evs ++ (transient_write W h m).2) rest := rfl
    have hstep0 : runTransientFrom W (h, []) (m :: rest) =
        runTransientFrom W
          ((transient_write W h m).1, [] ++ (transient_write W h m).2) rest := rfl
    rw [hstep, hstep0,
      runTransientFrom_events rest W (transient_write W h m).1
        (evs ++ (transient_write W h m).2),
      runTransientFrom_events rest W (transient_write W h m).1
        ([] ++ (transient_write W h m).2)]
    simp [List.append_assoc]

/-- The first transient write from a fresh handler on a fresh terminal. -/
theorem C6_first (W : Nat) (m : Str) (h3 : 3 ≤ W) (hne : pyRstrip m ≠ [])
    (hnl : '\n' ∉ pyRstrip m) (hncr : '\r' ∉ pyRstrip m) :
    (transient_write W Handler.fresh m).1 = ⟨true, renderLine W (pyRstrip m)⟩ ∧
      (renderLine W (pyRstrip m)).length ≤ W ∧
      (renderEvs ⟨[], 0⟩ (transient_write W Handler.fresh m).2).row =
        renderLine W (pyRstrip m) := by
  have hr_nocr : '\r' ∉ renderLine W (pyRstrip m) :=
    not_mem_renderLine W (pyRstrip m) hncr
  rw [transient_write_single W Handler.fresh m hne hnl]
  refine ⟨rfl, renderLine_length_le W (pyRstrip m) h3, ?_⟩
  have hlw : max (min W Handler.fresh.last.length)
      (renderLine W (pyRstrip m)).length = (renderLine W (pyRstrip m)).length := by
    simp [Handler.fresh]
  rw [hlw, ljust_of_le _ _ le_rfl]
  have hfr : Handler.fresh.need_cr = false := rfl
  rw [hfr]
  simp only [Bool.false_eq_true, if_false, List.nil_append]
  rw [renderEvs_wr, renderEvs_nil, renderStr_col_zero _ _ hr_nocr]
  simp

/-- Processing further single-line messages from an invariant state: the
final visible row is the last message's rendered text padded by spaces. -/
theorem C6_aux :
    ∀ (msgs : List Str) (m : Str) (W : Nat) (h : Handler) (t : Term) (k : Nat),
    3 ≤ W →
    (∀ x ∈ msgs, pyRstrip x ≠ [] ∧ '\n' ∉ pyRstrip x ∧ '\r' ∉ pyRstrip x) →
    (pyRstrip m ≠ [] ∧ '\n' ∉ pyRstrip m ∧ '\r' ∉ pyRstrip m) →
    h.need_cr = true → h.last.length ≤ W →
    t.row = h.last ++ List.replicate k ' ' →
    ∃ k', (renderEvs t (runTransientFrom W (h, []) (msgs ++ [m])).2).row =
      renderLine W (pyRstrip m) ++ List.replicate k' ' '
  | [], m, W, h, t, k, h3, _, hm, hcr, hlast, hrow => by
    obtain ⟨hne, hnl, hncr⟩ := hm
    have hstep := C6_step W h t k m h3 hne hnl hncr hcr hlast hrow
    have hrun : runTransientFrom W (h, []) ([] ++ [m]) =
        ((transient_write W h m).1, [] ++ (transient_write W h m).2) := rfl
    rw [hrun]
    simpa using hstep.2.2
  | x :: rest, m, W, h, t, k, h3, hgood, hm, hcr, hlast, hrow => by
    obtain ⟨hxne, hxnl, hxncr⟩ := hgood x (List.mem_cons_self x rest)
    have hgood' : ∀ y ∈ rest,
        pyRstrip y ≠ [] ∧ '\n' ∉ pyRstrip y ∧ '\r' ∉ pyRstrip y :=
      fun y hy => hgood y (List.mem_cons_of_mem _ hy)
    obtain ⟨hh1, hlen1, k2, hrow2⟩ :=
      C6_step W h t k x h3 hxne hxnl hxncr hcr hlast hrow
    obtain ⟨k', hk'⟩ := C6_aux rest m W (transient_write W h x).1
      (renderEvs t (transient_write W h x).2) k2 h3 hgood' hm
      (by rw [hh1]) (by rw [hh1]; exact hlen1) (by rw [hh1]; exact hrow2)
    refine ⟨k', ?_⟩
    have hevents : (runTransientFrom W (h, []) ((x :: rest) ++ [m])).2 =
        (transient_write W h x).2 ++
          (runTransientFrom W ((transient_write W h x).1, []) (rest ++ [m])).2 := by
      have h0 : runTransientFrom W (h, []) ((x :: rest) ++ [m]) =
          runTransientFrom W
            ((transient_write W h x).1, [] ++ (transient_write W h x).2)
            (rest ++ [m]) := rfl
      rw [h0, runTransientFrom_events (rest ++ [m]) W _ _]
      simp
    rw [hevents, renderEvs_append]
    exact hk'

/-- C6 (counterexample): with width 10, the transient-only sequence
`["aaaa\nb", "c"]` leaves the visible row `"caaab   "`: the characters
`aaab` of the first (multi-line) message are still visible after the last
message `"c"`, so the row is not just the last message's padded text. -/
theorem C6_counterexample :
    (renderEvs ⟨[], 0⟩ (runTransient 10 ["aaaa\nb".toList, ['c']]).2).row =
        "caaab   ".toList ∧
      ¬ ∃ k, "caaab   ".toList = ['c'] ++ List.replicate k (' ' : Char) := by
  constructor
  · decide
  · rintro ⟨k, hk⟩
    have hl := congrArg List.length hk
    simp only [List.length_append, List.length_cons, List.length_nil,
      List.length_replicate] at hl
    have hk7 : k = 7 := by
      have : ("caaab   ".toList).length = 8 := by decide
      omega
    subst hk7
    exact absurd hk (by decide)

/-- C6 (amended): for every non-empty sequence of transient-only messages
each of which strips to a single non-empty line without control characters,
with terminal width `W ≥ 3`, the visible terminal row after the last write is
exactly the last message's rendered (possibly truncated) text followed only
by spaces — no character of an earlier message remains visible. -/
theorem C6_amended (W : Nat) (msgs : List Str) (m : Str) (h3 : 3 ≤ W)
    (hgood : ∀ x ∈ msgs ++ [m],
      pyRstrip x ≠ [] ∧ '\n' ∉ pyRstrip x ∧ '\r' ∉ pyRstrip x) :
    ∃ k, (renderEvs ⟨[], 0⟩ (runTransient W (msgs ++ [m])).2).row =
      renderLine W (pyRstrip m) ++ List.replicate k ' ' := by
  cases msgs with
  | nil =>
    obtain ⟨hne, hnl, hncr⟩ := hgood m (by simp)
    obtain ⟨_, _, hrow⟩ := C6_first W m h3 hne hnl hncr
    have hrun : runTransient W ([] ++ [m]) =
        ((transient_write W Handler.fresh m).1,
          [] ++ (transient_write W Handler.fresh m).2) := rfl
    refine ⟨0, ?_⟩
    rw [hrun]
    simpa using hrow
  | cons x rest =>
    obtain ⟨hxne, hxnl, hxncr⟩ := hgood x (by simp)
    have hgood' : ∀ y ∈ rest ++ [m],
        pyRstrip y ≠ [] ∧ '\n' ∉ pyRstrip y ∧ '\r' ∉ pyRstrip y :=
      fun y hy => hgood y (by simp at hy ⊢; tauto)
    obtain ⟨hh1, hlen1, hrow1⟩ := C6_first W x h3 hxne hxnl hxncr
    obtain ⟨k', hk'⟩ := C6_aux (rest) m W (transient_write W Handler.fresh x).1
      (renderEvs ⟨[], 0⟩ (transient_write W Handler.fresh x).2) 0 h3
      (fun y hy => hgood' y (by simp at hy ⊢; tauto))
      (hgood' m (by simp))
      (by rw [hh1]) (by rw [hh1]; exact hlen1)
      (by rw [hh1]; simpa using hrow1)
    refine ⟨k', ?_⟩
    have h0 : runTransient W ((x :: rest) ++ [m]) =
        runTransientFrom W
          ((transient_write W Handler.fresh x).1,
            [] ++ (transient_write W Handler.fresh x).2) (rest ++ [m]) := rfl
    rw [h0, runTransientFrom_events (rest ++ [m]) W _ _]
    dsimp only
    rw [List.nil_append, renderEvs_append]
    exact hk'

/-- C6 witness: the amended statement at width 5 and the single message
`"ab"`. -/
theorem C6_amended_witness :
    (3 ≤ 5 ∧ ∀ x ∈ ([] ++ [['a', 'b']] : List Str),
        pyRstrip x ≠ [] ∧ '\n' ∉ pyRstrip x ∧ '\r' ∉ pyRstrip x) ∧
      ∃ k, (renderEvs ⟨[], 0⟩ (runTransient 5 ([] ++ [['a', 'b']])).2).row =
        renderLine 5 (pyRstrip ['a', 'b']) ++ List.replicate k ' ' :=
  ⟨⟨by decide, by decide⟩, C6_amended 5 [] ['a', 'b'] (by decide) (by decide)⟩

/-! ### C7: visual idempotence of a repeated transient message -/

/-- C7: repeating an identical single-line transient message leaves the same
visible row and the same handler state (`last_line`, `needs_newline`) as
writing it once; only re-padding bytes differ.  (A single-line message is one
whose stripped text contains no newline and no carriage return; when
`needs_newline` is false the cursor sits at column 0, as it does in every
reachable state.) -/
theorem C7_transient_idempotent (W : Nat) (h : Handler) (t : Term) (m : Str)
    (hnl : '\n' ∉ pyRstrip m) (hncr : '\r' ∉ pyRstrip m)
    (hcol : h.need_cr = false → t.col = 0) :
    (transient_write W (transient_write W h m).1 m).1 =
        (transient_write W h m).1 ∧
      (renderEvs t ((transient_write W h m).2 ++
          (transient_write W (transient_write W h m).1 m).2)).row =
        (renderEvs t (transient_write W h m).2).row := by
  by_cases hne : pyRstrip m = []
  · rw [transient_write_stripped_empty W h m hne]
    rw [transient_write_stripped_empty W ⟨true, h.last⟩ m hne]
    refine ⟨rfl, ?_⟩
    cases hcr : h.need_cr <;>
      simp [hcr, renderEvs_append, renderEvs_wr, renderEvs_flush, renderEvs_nil,
        renderStr_cr]
  · have hr_nocr : '\r' ∉ renderLine W (pyRstrip m) :=
      not_mem_renderLine W (pyRstrip m) hncr
    rw [transient_write_single W h m hne hnl]
    rw [transient_write_single W ⟨true, renderLine W (pyRstrip m)⟩ m hne hnl]
    refine ⟨rfl, ?_⟩
    set r := renderLine W (pyRstrip m) with hrdef
    have hlw2 : max (min W ((⟨true, r⟩ : Handler).last).length) r.length =
        r.length := by
      exact Nat.max_eq_right (Nat.min_le_right _ _)
    rw [hlw2, ljust_of_le _ _ le_rfl]
    set lw := max (min W h.last.length) r.length with hlwdef
    have hrlw : r.length ≤ lw := le_max_right _ _
    have hpad : ljust lw r = r ++ List.replicate (lw - r.length) ' ' := rfl
    have hp_nocr : '\r' ∉ r ++ List.replicate (lw - r.length) ' ' := by
      rw [← hpad]
      exact not_mem_ljust lw r hr_nocr
    cases hcr : h.need_cr
    · have hc0 : t.col = 0 := hcol hcr
      obtain ⟨row, col⟩ := t
      simp only at hc0
      subst hc0
      simp only [Bool.false_eq_true, if_false, List.nil_append, if_true,
        List.singleton_append]
      simp only [renderEvs_wr, renderEvs_nil, renderEvs_flush, renderStr_cr]
      rw [hpad]
      exact rewrite_same row r (lw - r.length) hr_nocr hp_nocr
    · simp only [if_true, List.singleton_append]
      simp only [renderEvs_wr, renderEvs_nil, renderEvs_flush, renderStr_cr]
      rw [hpad]
      exact rewrite_same t.row r (lw - r.length) hr_nocr hp_nocr

/-- C7 witness: the statement at width 5, fresh handler, fresh terminal and
the message `"ab"`. -/
theorem C7_transient_idempotent_witness :
    ('\n' ∉ pyRstrip ['a', 'b'] ∧ '\r' ∉ pyRstrip ['a', 'b'] ∧
        (Handler.fresh.need_cr = false → (⟨[], 0⟩ : Term).col = 0)) ∧
      ((transient_write 5 (transient_write 5 Handler.fresh ['a', 'b']).1
            ['a', 'b']).1 = (transient_write 5 Handler.fresh ['a', 'b']).1 ∧
        (renderEvs ⟨[], 0⟩ ((transient_write 5 Handler.fresh ['a', 'b']).2 ++
            (transient_write 5 (transient_write 5 Handler.fresh ['a', 'b']).1
              ['a', 'b']).2)).row =
          (renderEvs ⟨[], 0⟩ (transient_write 5 Handler.fresh ['a', 'b']).2).row) :=
  ⟨⟨by decide, by decide, fun _ => rfl⟩,
    C7_transient_idempotent 5 Handler.fresh ⟨[], 0⟩ ['a', 'b']
      (by decide) (by decide) (fun _ => rfl)⟩

end Fabulous
